import Mathlib

/-!
Verification of the Video-Browser workflow engine against its source.

The embedding follows the Python sources under `videobrowser/`:
Python dicts become insertion-ordered association lists (`AList`), Python
string operations (`in`, `str.split`) are embedded over character lists,
fallible collaborator calls (LLM parse results, media downloads) become
explicit `Option`/oracle arguments, and each graph node's returned partial
update becomes a record of the fields it actually returns.
-/

set_option autoImplicit false

namespace VideoBrowser

/-! ### Python dicts as insertion-ordered association lists

A Python dict keeps unique keys in insertion order; assignment to an
existing key replaces the value in place, assignment to a new key appends
it at the end. -/

abbrev AList (α : Type) := List (String × α)

/-- Python `m[k]` / `m.get(k)` lookup: the first (unique) entry for key `k`. -/
def aget {α : Type} : AList α → String → Option α
  | [], _ => none
  | p :: rest, k => if p.1 = k then some p.2 else aget rest k

/-- Python `m[k] = v`: replace the entry in place if present, else append. -/
def aset {α : Type} : AList α → String → α → AList α
  | [], k, v => [(k, v)]
  | p :: rest, k, v => if p.1 = k then (k, v) :: rest else p :: aset rest k v

/-- Python `k in m` membership test. -/
def hasKey {α : Type} (m : AList α) (k : String) : Bool :=
  m.any (fun p => p.1 == k)

/-! ### Python string primitives

`videobrowser/utils/parser.py` manipulates URLs with the Python `in`
operator and `str.split`; both are embedded over character lists. -/

/-- Python substring containment, the `in` operator on `str`. -/
def pyContains (sub : List Char) : List Char → Bool
  | [] => sub.isEmpty
  | c :: rest => sub.isPrefixOf (c :: rest) || pyContains sub rest

/-- Fuel-indexed worker for Python `str.split` on a non-empty separator:
splits at the leftmost non-overlapping occurrences.  The fuel is an upper
bound on the input length so the recursion is structural; `pySplit` always
supplies enough fuel. -/
def pySplitAux (sep : List Char) : Nat → List Char → List (List Char)
  | _, [] => [[]]
  | 0, s => [s]
  | Nat.succ fuel, c :: rest =>
    if !sep.isEmpty && sep.isPrefixOf (c :: rest) then
      [] :: pySplitAux sep fuel ((c :: rest).drop sep.length)
    else
      match pySplitAux sep fuel rest with
      | r :: rs => (c :: r) :: rs
      | [] => [[c]]

/-- Python `s.split(sep)` over character lists. -/
def pySplit (sep s : List Char) : List (List Char) := pySplitAux sep s.length s

/-- Python `pat in s` on strings. -/
def strContains (s pat : String) : Bool := pyContains pat.data s.data

/-- Python `s.split(sep)` on strings. -/
def strSplit (s sep : String) : List String := (pySplit sep.data s.data).map String.mk

/-! ### Core data model (`videobrowser/core/state.py`) -/

/-- Embeds `EvidenceFragment`.  The `confidence` float is only ever stored,
never computed with, so an exact rational stands in for it. -/
structure EvidenceFragment where
  source : String
  content : String
  timestamp_start : Option String := none
  timestamp_end : Option String := none
  confidence : Rat := 0
deriving DecidableEq

/-- Embeds `VideoResource`. -/
structure VideoResource where
  video_id : String
  title : String
  url : String
  duration : String
  status : String := "candidate"
  relevance_reason : String := ""
  evidence : List EvidenceFragment := []
  summary : Option String := none
  transcript : Option String := none
deriving DecidableEq

/-- A raw video candidate from the search provider: a Python dict of which
the code reads `link`, `title`, `snippet`/`description`, `duration`, and the
`id` slot the Searcher writes.  `none` models an absent key. -/
structure Candidate where
  link : Option String := none
  title : Option String := none
  snippet : Option String := none
  duration : Option String := none
  id : String := ""
deriving DecidableEq

/-- Embeds the `AgentState` blackboard, with `Option` marking fields the code
reads through `state.get` with a default (they may be absent in the LangGraph
state dict).  The metrics record is embedded separately (`MDict`). -/
structure Blackboard where
  user_query : String := ""
  constraints : List String := []
  video_store : AList VideoResource := []
  current_search_queries : List String := []
  visual_hypothesis : Option String := none
  raw_candidates : List Candidate := []
  ambiguity_note : Option String := none
  tried_queries : List String := []
  visited_video_ids : List String := []
  text_search_context : List String := []
  plan_trace : List String := []
  loop_step : Option Nat := none
  final_answer : Option String := none
  routing_signal : Option String := none

/-! ### Routing functions (`videobrowser/graph/builder.py`) -/

/-- Embeds `route_checker_output`: reads
`state.get("routing_signal", "planner")` and routes `"ask_user"` to the
user-proxy branch, `"analyst"` to the analyst, everything else to the
planner. -/
def route_checker_output (state : Blackboard) : String :=
  let signal := state.routing_signal.getD "planner"
  if signal = "ask_user" then "user_proxy"
  else if signal = "analyst" then "analyst"
  else "planner"

/-- Embeds `route_selector_output`: counts store entries whose status is
`"candidate"` or `"analyzing"` and routes to the watcher iff there are any. -/
def route_selector_output (state : Blackboard) : String :=
  let candidates := (state.video_store.map Prod.snd).filter
    (fun v => v.status == "candidate" || v.status == "analyzing")
  if candidates.length > 0 then "watcher" else "checker"

/-! ### Checker (`videobrowser/nodes/checker.py`) -/

/-- Embeds `checker_node`: the returned partial update is the pair
`(loop_step, routing_signal)`.  The node reads only
`state.get("loop_step", 0)` from the blackboard (the store and history sizes
it also reads feed only log lines). -/
def checker_node (max_loop_steps : Nat) (state : Blackboard) : Nat × String :=
  let current_step := state.loop_step.getD 0 + 1
  if current_step < max_loop_steps then (current_step, "planner")
  else (current_step, "analyst")

/-- Runs `checker_node` a given number of consecutive times starting from a
given `loop_step`, threading the Replace-merged `loop_step` back into the
next call's snapshot and collecting the emitted routing signals. -/
def runChecker (max_loop_steps s : Nat) : Nat → List String
  | 0 => []
  | Nat.succ k =>
      (checker_node max_loop_steps { loop_step := some s }).2 ::
        runChecker max_loop_steps (checker_node max_loop_steps { loop_step := some s }).1 k

/-! ### Video id resolution (`videobrowser/utils/parser.py`) -/

/-- Embeds `extract_youtube_id`: an empty URL gives `""`; otherwise the code
tests the bare substrings `"v="`, `"/shorts/"` and `"youtu.be/"` in turn and
slices with Python `str.split`; a URL matching none of them is returned
unchanged. -/
def extract_youtube_id (url : String) : String :=
  if url = "" then ""
  else if strContains url "v=" then
    (strSplit ((strSplit url "v=").getLastD "") "&").headD ""
  else if strContains url "/shorts/" then
    (strSplit ((strSplit ((strSplit url "/shorts/").getLastD "") "?").headD "") "&").headD ""
  else if strContains url "youtu.be/" then
    (strSplit ((strSplit ((strSplit url "youtu.be/").getLastD "") "?").headD "") "&").headD ""
  else url

/-! ### Searcher candidate deduplication (`videobrowser/nodes/searcher.py`) -/

/-- The Searcher's deduplication key for a raw candidate: its `link` resolved
through `extract_youtube_id`.  A candidate whose `link` is absent or empty is
dropped before deduplication (the code guards with `if link:`). -/
def candKey (c : Candidate) : Option String :=
  match c.link with
  | none => none
  | some l => if l = "" then none else some (extract_youtube_id l)

/-- One iteration of the Searcher's dedup loop over `unique_candidates`: the
candidate's `id` slot is set to the resolved key and the candidate is stored
only if the key is not yet present (Python dicts append new keys at the
end). -/
def dedupStep (m : AList Candidate) (c : Candidate) : AList Candidate :=
  match candKey c with
  | none => m
  | some k => if hasKey m k then m else m ++ [(k, { c with id := k })]

def dedupGo (m : AList Candidate) : List Candidate → AList Candidate
  | [] => m
  | c :: cs => dedupGo (dedupStep m c) cs

/-- Embeds the Searcher's candidate deduplication: the returned
`raw_candidates` value is `list(unique_candidates.values())`. -/
def dedupCandidates (cands : List Candidate) : List Candidate :=
  (dedupGo [] cands).map Prod.snd

/-! ### Selector store update (`videobrowser/nodes/selector.py`) -/

/-- A normalized selector candidate: the raw dict copied with its `url` slot
set (an entry of `selector_node`'s `valid_candidates`). -/
structure TargetVideo where
  url : String
  title : Option String := none
  duration : Option String := none
deriving DecidableEq

/-- The resource identifier the Selector assigns to the target at position
`i`: `extract_youtube_id(url)`, or the positional fallback when that is
empty. -/
def selectorVideoId (i : Nat) (v : TargetVideo) : String :=
  let e := extract_youtube_id v.url
  if e = "" then "vid_" ++ toString i else e

/-- The fresh VideoResource the Selector creates for an unseen identifier. -/
def newCandidateResource (vid : String) (v : TargetVideo) : VideoResource :=
  { video_id := vid
    title := v.title.getD "Unknown"
    url := v.url
    duration := v.duration.getD "Unknown"
    status := "candidate"
    summary := some ""
    transcript := some "" }

/-- One iteration of `selector_node`'s store-update loop: unseen identifiers
are inserted as fresh candidates; existing entries are re-marked
`"candidate"` unless their status is `"verified"` or `"watched"`. -/
def selectorStep (st : AList VideoResource) (iv : Nat × TargetVideo) :
    AList VideoResource :=
  match aget st (selectorVideoId iv.1 iv.2) with
  | none => aset st (selectorVideoId iv.1 iv.2)
      (newCandidateResource (selectorVideoId iv.1 iv.2) iv.2)
  | some r =>
      if r.status ≠ "verified" ∧ r.status ≠ "watched" then
        aset st (selectorVideoId iv.1 iv.2) { r with status := "candidate" }
      else st

def selectorUpdateStore (st : AList VideoResource) :
    List (Nat × TargetVideo) → AList VideoResource
  | [] => st
  | iv :: rest => selectorUpdateStore (selectorStep st iv) rest

/-- Embeds `selector_node`'s effect on the video store: the update loop over
the enumerated selected target videos. -/
def selector_node_store (st : AList VideoResource)
    (targets : List TargetVideo) : AList VideoResource :=
  selectorUpdateStore st targets.enum

/-! ### Claim theorems: routing functions and checker -/

/-! ### Claim theorems: Searcher deduplication and id resolution -/

/-- Two raw search results reaching the same video through different URL
shapes and query strings. -/
def sampleCandA : Candidate :=
  { link := some "https://www.youtube.com/watch?v=abc123", title := some "first" }

def sampleCandB : Candidate :=
  { link := some "https://youtu.be/abc123?t=30", title := some "second" }

/-! ### Claim theorems: Selector status monotonicity -/

/-- A verified resource already on the blackboard. -/
def sampleVerified : VideoResource :=
  { video_id := "K", title := "kept", url := "https://youtu.be/K",
    duration := "1:00", status := "verified" }

/-! ### Planner fallback (`videobrowser/nodes/planner.py`) -/

/-- A parsed planner response: the fields `planner_node` reads off the JSON
object extracted from the model output. -/
structure PlannerPlan where
  thought : Option String := none
  search_queries : Option (List String) := none
deriving DecidableEq

/-- The two fields of the Planner's partial update that the fallback
behaviour concerns (the node additionally returns a metrics record). -/
structure PlannerUpdate where
  plan_trace : List String
  current_search_queries : List String
deriving DecidableEq

/-- Embeds `planner_node` downstream of the model call: `parsed` is the
outcome of `extract_json_from_text` on the response, with `none` standing
for any exception in the parse-and-truncate block — all of them are caught
by the node's `except Exception` fallback, which substitutes the fixed plan
holding the raw user query. -/
def planner_node (user_query : String) (max_queries : Nat)
    (parsed : Option PlannerPlan) : PlannerUpdate :=
  match parsed with
  | none =>
      { plan_trace := ["Thought: Parsing error, fallback to original query."],
        current_search_queries := [user_query] }
  | some plan =>
      match plan.search_queries with
      | some qs =>
          { plan_trace := ["Thought: " ++ plan.thought.getD "None"],
            current_search_queries :=
              if qs.isEmpty then qs else qs.take max_queries }
      | none =>
          { plan_trace := ["Thought: " ++ plan.thought.getD "None"],
            current_search_queries := [] }

/-! ### Analyst (`videobrowser/nodes/analyst.py`) -/

/-- A relevant-window record from the Watcher's stored analysis.  The float
timestamps are only ever compared, so exact rationals stand in for them. -/
structure AnalysisWindow where
  start_time_seconds : Rat := 0
  end_time_seconds : Rat := 0
  reasoning : String := ""
deriving DecidableEq

/-- The object `json.loads` yields from a stored summary: its `relevant`
flag, its `windows` list, and — for the old single-window format — whether a
top-level `start_time_seconds` key exists and the window the object itself
then denotes. -/
structure WindowAnalysis where
  relevant : Bool := false
  windows : List AnalysisWindow := []
  has_start_time : Bool := false
  self_window : AnalysisWindow := {}
deriving DecidableEq

/-- The Analyst's view of a stored summary: absent or empty, a string that
`json.loads` rejects, a string `json.loads` accepts but that yields a
non-object (array, number or string — reachable, since the Watcher stores
`json.dumps` of whatever `extract_json_from_text` returned, which can be an
array), or the parsed analysis object. -/
inductive SummaryField where
  | absent
  | unparseable (raw : String)
  | parsedNonDict (raw : String)
  | parsed (a : WindowAnalysis)
deriving DecidableEq

/-- A video resource as the Analyst consumes it, with the summary's parse
outcome made explicit. -/
structure AResource where
  title : String := ""
  url : String := ""
  status : String := "candidate"
  summaryState : SummaryField := SummaryField.absent
  transcript : Option String := none
deriving DecidableEq

/-- The window list the Analyst iterates for one resource: the parsed
`windows`, or under the old format the analysis itself as single window. -/
def analysisWindows (a : WindowAnalysis) : List AnalysisWindow :=
  if !a.windows.isEmpty then a.windows
  else if a.has_start_time then [a.self_window] else []

/-- Whether one resource sets `has_relevant_content` in the Analyst's first
pass: verified status, a truthy summary that parses with `relevant` set, a
non-empty window list, a successful media fetch (`download`), and some
window of positive extent. -/
def yieldsRelevantWindow (download : String → Bool) (r : AResource) : Bool :=
  r.status == "verified" &&
  (match r.summaryState with
   | SummaryField.parsed a =>
       a.relevant &&
       !(analysisWindows a).isEmpty &&
       download r.url &&
       (analysisWindows a).any
         (fun w => decide (w.start_time_seconds < w.end_time_seconds))
   | _ => false)

/-- Python truthiness of the transcript field. -/
def transcriptTruthy (r : AResource) : Bool :=
  match r.transcript with
  | none => false
  | some t => !(t == "")

/-- Whether one resource makes the Analyst's first pass raise: only the
`json.loads` call sits inside the `try/except`, so a verified resource with
a truthy summary that parses to a non-object reaches
`analysis.get("relevant", False)` and raises `AttributeError`. -/
def raisesAttributeError (r : AResource) : Bool :=
  r.status == "verified" &&
  (match r.summaryState with
   | SummaryField.parsedNonDict _ => true
   | _ => false)

/-- Outcome of the Analyst's answer determination. -/
inductive AnalystResult where
  /-- A fixed degraded answer returned early, without invoking the
  synthesis collaborator. -/
  | fixedAnswer (s : String)
  /-- The node goes on to call the synthesis collaborator for the final
  answer. -/
  | synthesize
  /-- The node raises an uncaught `AttributeError` while scanning the store
  (its first loop visits every resource, so the raise fires before the
  transcript fallback and before any collaborator call). -/
  | attributeError
deriving DecidableEq

/-- Embeds the Analyst's answer determination over the video store.  The
empty-store check comes first; the first loop visits every resource, so any
resource whose summary parsed to a non-object raises before the transcript
fallback or the synthesis call can happen. -/
def analyst_node (download : String → Bool)
    (video_store : AList AResource) : AnalystResult :=
  if video_store.isEmpty then
    AnalystResult.fixedAnswer "No videos were successfully processed."
  else if video_store.any (fun p => raisesAttributeError p.2) then
    AnalystResult.attributeError
  else if video_store.any (fun p => yieldsRelevantWindow download p.2) then
    AnalystResult.synthesize
  else if video_store.any (fun p => transcriptTruthy p.2) then
    AnalystResult.synthesize
  else
    AnalystResult.fixedAnswer
      "No relevant video content or transcripts found to answer the query."

/-! ### Merge policy reducers (`videobrowser/core/state.py`,
`videobrowser/utils/metrics.py`) -/

/-- Embeds the `operator.add` reducer attached to the append-policy fields
`tried_queries`, `visited_video_ids`, `text_search_context` and
`plan_trace`: each merge concatenates the partial update's contribution onto
the current value. -/
def appendReducer (current part : List String) : List String :=
  current ++ part

/-- A metrics value: a token counter or a per-category sub-map of counters —
the two shapes `update_token_metrics` stores in the `Dict[str, Any]`
record. -/
inductive MVal where
  | num (n : Int)
  | sub (m : List (String × Int))
deriving DecidableEq

abbrev MDict := AList MVal

/-- Embeds the `operator.ior` reducer on the metrics record: Python dict
union keeps the current record's keys in order, the partial update's value
winning per top-level key, then appends the partial update's new keys. -/
def iorMerge (current part : MDict) : MDict :=
  (current.map (fun p =>
    match aget part p.1 with
    | some v => (p.1, v)
    | none => p))
  ++ part.filter (fun p => (aget current p.1).isNone)

/-- Modelled from the spec's words, for comparison with `iorMerge`: the
same-key sub-map case of a two-level shallow merge merges the sub-maps key
by key instead of replacing them. -/
def subMerge (current part : List (String × Int)) : List (String × Int) :=
  (current.map (fun p =>
    match aget part p.1 with
    | some v => (p.1, v)
    | none => p))
  ++ part.filter (fun p => (aget current p.1).isNone)

/-- Modelled from the spec's words: the two-level shallow merge the claim
describes for the metrics record. -/
def twoLevelMerge (current part : MDict) : MDict :=
  (current.map (fun p =>
    match aget part p.1 with
    | some v =>
        match p.2, v with
        | MVal.sub m1, MVal.sub m2 => (p.1, MVal.sub (subMerge m1 m2))
        | _, _ => (p.1, v)
    | none => p))
  ++ part.filter (fun p => (aget current p.1).isNone)

/-- The token-usage counters read off an LLM response
(`response.response_metadata` token usage, absent keys defaulting to 0). -/
structure TokenUsage where
  prompt_tokens : Int := 0
  completion_tokens : Int := 0
  total_tokens : Int := 0
deriving DecidableEq

/-- Python `d.get(k, 0)` on the metrics record's counters. -/
def mgetInt (m : MDict) (k : String) : Int :=
  match aget m k with
  | some (MVal.num n) => n
  | _ => 0

/-- Python `d.get(k, 0)` on a category sub-map. -/
def sgetInt (m : List (String × Int)) (k : String) : Int :=
  match aget m k with
  | some n => n
  | none => 0

/-- Embeds `utils/metrics.py update_token_metrics`: copies the current
record, pre-adds the three global counters, and when a category is given
pre-adds the same counters inside that category's sub-map (an existing
non-map value under the category is discarded, as in the code). -/
def update_token_metrics (current : MDict) (usage : TokenUsage)
    (category : Option String) : MDict :=
  let m1 := aset current "input_tokens"
      (MVal.num (mgetInt current "input_tokens" + usage.prompt_tokens))
  let m2 := aset m1 "output_tokens"
      (MVal.num (mgetInt m1 "output_tokens" + usage.completion_tokens))
  let m3 := aset m2 "total_tokens"
      (MVal.num (mgetInt m2 "total_tokens" + usage.total_tokens))
  match category with
  | none => m3
  | some cat =>
      let cm :=
        match aget m3 cat with
        | some (MVal.sub m) => m
        | _ => []
      let cm1 := aset cm "input_tokens"
          (sgetInt cm "input_tokens" + usage.prompt_tokens)
      let cm2 := aset cm1 "output_tokens"
          (sgetInt cm1 "output_tokens" + usage.completion_tokens)
      let cm3 := aset cm2 "total_tokens"
          (sgetInt cm2 "total_tokens" + usage.total_tokens)
      aset m3 cat (MVal.sub cm3)

/-! ## Theorem development -/

theorem aget_aset_self {α : Type} (m : AList α) (k : String) (v : α) :
    aget (aset m k v) k = some v := by
  induction m with
  | nil => simp [aset, aget]
  | cons p rest ih =>
    by_cases h : p.1 = k <;> simp [aset, aget, h, ih]

theorem aget_aset_ne {α : Type} (m : AList α) (k k' : String) (v : α)
    (h : k' ≠ k) : aget (aset m k' v) k = aget m k := by
  induction m with
  | nil => simp [aset, aget, h]
  | cons p rest ih =>
    by_cases hp : p.1 = k' <;> simp [aset, aget, hp, ih]
    subst hp
    simp [h]

/-- With no occurrence of the separator, the split leaves the string whole. -/
theorem pySplitAux_of_not_contains (sep : List Char) :
    ∀ (fuel : Nat) (s : List Char), pyContains sep s = false →
      pySplitAux sep fuel s = [s] := by
  intro fuel
  induction fuel with
  | zero => intro s _; cases s <;> rfl
  | succ fuel ih =>
    intro s h
    cases s with
    | nil => rfl
    | cons c rest =>
      have hcontains := h
      simp only [pyContains, Bool.or_eq_false_iff] at hcontains
      rw [pySplitAux]
      rw [hcontains.1]
      simp only [Bool.and_false, Bool.false_eq_true, if_false]
      rw [ih rest hcontains.2]

theorem strSplit_of_not_contains (s sep : String)
    (h : strContains s sep = false) : strSplit s sep = [s] := by
  unfold strContains at h
  unfold strSplit pySplit
  rw [pySplitAux_of_not_contains sep.data s.data.length s.data h]
  simp [List.map]

theorem runChecker_eq (N : Nat) :
    ∀ (k s : Nat), s + k = N → 1 ≤ k →
      runChecker N s k = List.replicate (k - 1) "planner" ++ ["analyst"] := by
  intro k
  induction k with
  | zero => omega
  | succ k ih =>
    intro s hsum _
    cases k with
    | zero =>
      have hN : s + 1 = N := by omega
      simp [runChecker, checker_node, hN]
    | succ k =>
      have hlt : s + 1 < N := by omega
      have hrec := ih (s + 1) (by omega) (by omega)
      have hstep : checker_node N { loop_step := some s } = (s + 1, "planner") := by
        simp [checker_node, hlt]
      rw [runChecker, hstep]
      show "planner" :: runChecker N (s + 1) (k + 1) = _
      rw [hrec]
      rfl

/-- C1 (counterexample): on a blackboard whose routing signal is
`"ask_user"`, `route_checker_output` returns the branch label
`"user_proxy"`, not `"ask_user"` as the claim states. -/
theorem route_checker_ask_user_counterexample :
    route_checker_output { routing_signal := some "ask_user" } = "user_proxy"
    ∧ route_checker_output { routing_signal := some "ask_user" } ≠ "ask_user" := by
  exact ⟨rfl, by decide⟩

/-- C1 (amended): `route_checker_output` maps routing signal `"ask_user"` to
the result `"user_proxy"`, `"analyst"` to `"analyst"`, and every other value
of the signal — including an absent one — to `"planner"`. -/
theorem route_checker_output_cases (state : Blackboard) :
    (state.routing_signal = some "ask_user" →
        route_checker_output state = "user_proxy")
    ∧ (state.routing_signal = some "analyst" →
        route_checker_output state = "analyst")
    ∧ (∀ s, state.routing_signal = some s → s ≠ "ask_user" → s ≠ "analyst" →
        route_checker_output state = "planner")
    ∧ (state.routing_signal = none → route_checker_output state = "planner") := by
  refine ⟨fun h => ?_, fun h => ?_, fun s h h1 h2 => ?_, fun h => ?_⟩
  · unfold route_checker_output
    rw [h]
    decide
  · unfold route_checker_output
    rw [h]
    decide
  · unfold route_checker_output
    rw [h]
    simp [h1, h2]
  · unfold route_checker_output
    rw [h]
    decide

/-- Witness for C1 (amended) at concrete signals. -/
theorem route_checker_output_cases_witness :
    (some "ask_user" = some "ask_user"
      ∧ route_checker_output { routing_signal := some "ask_user" } = "user_proxy")
    ∧ (some "stray" = some "stray"
      ∧ route_checker_output { routing_signal := some "stray" } = "planner") :=
  ⟨⟨rfl, (route_checker_output_cases { routing_signal := some "ask_user" }).1 rfl⟩,
   ⟨rfl, (route_checker_output_cases { routing_signal := some "stray" }).2.2.1
      "stray" rfl (by decide) (by decide)⟩⟩

theorem route_selector_filter_pos (state : Blackboard) :
    (((state.video_store.map Prod.snd).filter
        (fun v => v.status == "candidate" || v.status == "analyzing")).length > 0)
      ↔ ∃ p ∈ state.video_store,
          p.2.status = "candidate" ∨ p.2.status = "analyzing" := by
  rw [gt_iff_lt, List.length_pos]
  constructor
  · intro hne
    rcases List.exists_mem_of_ne_nil _ hne with ⟨v, hv⟩
    rw [List.mem_filter] at hv
    rcases List.mem_map.mp hv.1 with ⟨p, hp, hpv⟩
    refine ⟨p, hp, ?_⟩
    rw [hpv]
    simpa using hv.2
  · rintro ⟨p, hp, hstat⟩
    intro hnil
    have hmem : p.2 ∈ (state.video_store.map Prod.snd).filter
        (fun v => v.status == "candidate" || v.status == "analyzing") :=
      List.mem_filter.mpr ⟨List.mem_map.mpr ⟨p, hp, rfl⟩, by simpa using hstat⟩
    rw [hnil] at hmem
    exact absurd hmem (List.not_mem_nil _)

/-- C8: `route_selector_output` returns `"watcher"` exactly when the video
store has at least one entry whose status is `"candidate"` or
`"analyzing"`, and `"checker"` otherwise. -/
theorem route_selector_output_spec (state : Blackboard) :
    (route_selector_output state = "watcher"
      ↔ ∃ p ∈ state.video_store,
          p.2.status = "candidate" ∨ p.2.status = "analyzing")
    ∧ (route_selector_output state = "checker"
      ↔ ¬ ∃ p ∈ state.video_store,
          p.2.status = "candidate" ∨ p.2.status = "analyzing") := by
  by_cases h : ((state.video_store.map Prod.snd).filter
      (fun v => v.status == "candidate" || v.status == "analyzing")).length > 0
  · have hx := (route_selector_filter_pos state).mp h
    have hr : route_selector_output state = "watcher" := if_pos h
    constructor
    · rw [hr]
      exact ⟨fun _ => hx, fun _ => rfl⟩
    · rw [hr]
      constructor
      · intro hc
        exact absurd hc (by decide)
      · intro hno
        exact absurd hx hno
  · have hx : ¬ ∃ p ∈ state.video_store,
        p.2.status = "candidate" ∨ p.2.status = "analyzing" :=
      fun hc => h ((route_selector_filter_pos state).mpr hc)
    have hr : route_selector_output state = "checker" := if_neg h
    constructor
    · rw [hr]
      constructor
      · intro hc
        exact absurd hc (by decide)
      · intro hex
        exact absurd hex hx
    · rw [hr]
      exact ⟨fun _ => hx, fun _ => rfl⟩

/-- C3: each Checker call returns `loop_step` incremented by exactly 1, its
partial update depends only on the incoming `loop_step` (not on any other
blackboard content), and for a configured maximum of N ≥ 1 loop steps, the N
consecutive calls starting from `loop_step = 0` emit `"planner"` on the
first N-1 calls and `"analyst"` on the N-th. -/
theorem checker_node_spec (N : Nat) :
    (∀ state : Blackboard,
        (checker_node N state).1 = state.loop_step.getD 0 + 1)
    ∧ (∀ s1 s2 : Blackboard, s1.loop_step = s2.loop_step →
        checker_node N s1 = checker_node N s2)
    ∧ (1 ≤ N → runChecker N 0 N =
        List.replicate (N - 1) "planner" ++ ["analyst"]) := by
  refine ⟨fun state => ?_, fun s1 s2 h => ?_, fun hN => ?_⟩
  · unfold checker_node
    by_cases h : state.loop_step.getD 0 + 1 < N <;> simp [h]
  · unfold checker_node
    rw [h]
  · exact runChecker_eq N N 0 (by omega) hN

/-- Witness for C3 at N = 3. -/
theorem checker_node_spec_witness :
    1 ≤ 3 ∧ runChecker 3 0 3 = List.replicate 2 "planner" ++ ["analyst"] :=
  ⟨by decide, (checker_node_spec 3).2.2 (by decide)⟩

theorem dedupGo_filter (k : String) :
    ∀ (cands : List Candidate) (m : AList Candidate),
      (dedupGo m cands).filter (fun p => p.1 == k) =
        m.filter (fun p => p.1 == k) ++
          (if hasKey m k then []
           else
             match (cands.filter (fun c => candKey c == some k)).head? with
             | none => []
             | some c => [(k, { c with id := k })]) := by
  intro cands
  induction cands with
  | nil =>
    intro m
    cases hk : hasKey m k <;> simp [dedupGo, hk]
  | cons c cs ih =>
    intro m
    rw [show dedupGo m (c :: cs) = dedupGo (dedupStep m c) cs from rfl]
    rw [ih (dedupStep m c)]
    cases hc : candKey c with
    | none =>
      simp [dedupStep, hc, List.filter_cons]
    | some k2 =>
      by_cases hkk : k2 = k
      · subst hkk
        cases hm : hasKey m k2 with
        | true =>
          simp [dedupStep, hc, hm, List.filter_cons]
        | false =>
          simp only [dedupStep, hc, hm, Bool.false_eq_true, if_false,
            List.filter_append, List.filter_cons]
          have hany : hasKey (m ++ [(k2, { c with id := k2 })]) k2 = true := by
            simp [hasKey, List.any_append]
          rw [hany]
          simp [hm]
      · cases hm2 : hasKey m k2 with
        | true =>
          simp [dedupStep, hc, hm2, List.filter_cons, hkk]
        | false =>
          simp only [dedupStep, hc, hm2, Bool.false_eq_true, if_false,
            List.filter_append, List.filter_cons]
          have hany : hasKey (m ++ [(k2, { c with id := k2 })]) k =
              hasKey m k := by
            simp [hasKey, List.any_append, hkk]
          rw [hany]
          simp [hkk]

/-- Every entry the dedup loop stores is keyed by its own `id` slot. -/
theorem dedupGo_id_inv :
    ∀ (cands : List Candidate) (m : AList Candidate),
      (∀ p ∈ m, p.2.id = p.1) → ∀ p ∈ dedupGo m cands, p.2.id = p.1 := by
  intro cands
  induction cands with
  | nil =>
    intro m h
    exact h
  | cons c cs ih =>
    intro m h
    refine ih (dedupStep m c) ?_
    intro p hp
    cases hc : candKey c with
    | none =>
      simp only [dedupStep, hc] at hp
      exact h p hp
    | some k =>
      simp only [dedupStep, hc] at hp
      by_cases hm : hasKey m k = true
      · rw [if_pos hm] at hp
        exact h p hp
      · rw [if_neg hm] at hp
        rcases List.mem_append.mp hp with hin | hnew
        · exact h p hin
        · rcases List.mem_singleton.mp hnew with rfl
          rfl

theorem filter_map_snd_of_id_inv (k : String) :
    ∀ (m : AList Candidate), (∀ p ∈ m, p.2.id = p.1) →
      (m.map Prod.snd).filter (fun c => c.id == k) =
        (m.filter (fun p => p.1 == k)).map Prod.snd := by
  intro m
  induction m with
  | nil =>
    intro _
    rfl
  | cons p rest ih =>
    intro h
    have hid : p.2.id = p.1 := h p (by simp)
    have hrest := ih (fun q hq => h q (by simp [hq]))
    by_cases hk : p.1 = k <;>
      simp [List.filter_cons, hid, hk, hrest]

/-- C5: when the Searcher's raw candidates contain two or more entries whose
URLs resolve to the same video identifier, the deduplicated candidate list
contains exactly one entry for that identifier, namely the first one
encountered in input order (stored with its `id` slot set). -/
theorem searcher_dedup_first_occurrence (cands : List Candidate) (k : String)
    (c0 : Candidate)
    (hmany : 2 ≤ (cands.filter (fun c => candKey c == some k)).length)
    (hfirst : (cands.filter (fun c => candKey c == some k)).head? = some c0) :
    (dedupCandidates cands).filter (fun c => c.id == k) =
      [{ c0 with id := k }] := by
  unfold dedupCandidates
  rw [filter_map_snd_of_id_inv k _ (dedupGo_id_inv cands [] (by simp))]
  rw [dedupGo_filter k cands []]
  rw [hfirst]
  rfl

/-- Witness for C5 on two concrete candidates for the same video. -/
theorem searcher_dedup_first_occurrence_witness :
    2 ≤ (([sampleCandA, sampleCandB].filter
        (fun c => candKey c == some "abc123")).length)
    ∧ ([sampleCandA, sampleCandB].filter
        (fun c => candKey c == some "abc123")).head? = some sampleCandA
    ∧ (dedupCandidates [sampleCandA, sampleCandB]).filter
        (fun c => c.id == "abc123") = [{ sampleCandA with id := "abc123" }] :=
  ⟨by decide, by decide,
   searcher_dedup_first_occurrence [sampleCandA, sampleCandB] "abc123"
     sampleCandA (by decide) (by decide)⟩

/-- C10 (counterexample): this URL matches none of the documented patterns
`watch?v=`, `/shorts/`, `youtu.be/`, yet the resolver does not return it
unchanged, because the code keys on the bare substring `v=`. -/
theorem extract_id_pattern_counterexample :
    strContains "https://example.com/page?v=abc" "watch?v=" = false
    ∧ strContains "https://example.com/page?v=abc" "/shorts/" = false
    ∧ strContains "https://example.com/page?v=abc" "youtu.be/" = false
    ∧ extract_youtube_id "https://example.com/page?v=abc" = "abc"
    ∧ extract_youtube_id "https://example.com/page?v=abc"
        ≠ "https://example.com/page?v=abc" := by
  refine ⟨by decide, by decide, by decide, by decide, by decide⟩

/-- C10 (amended): the resolver returns `""` for an empty URL; any URL
containing none of the substrings `"v="`, `"/shorts/"`, `"youtu.be/"` — the
patterns the code actually tests — is returned unchanged, so the Searcher's
deduplication keys such a candidate by its full raw URL. -/
theorem extract_id_fallback (url : String) (c : Candidate)
    (h1 : strContains url "v=" = false)
    (h2 : strContains url "/shorts/" = false)
    (h3 : strContains url "youtu.be/" = false) :
    extract_youtube_id "" = ""
    ∧ extract_youtube_id url = url
    ∧ (c.link = some url → url ≠ "" → candKey c = some url) := by
  have hid : extract_youtube_id url = url := by
    unfold extract_youtube_id
    by_cases hu : url = ""
    · rw [if_pos hu, hu]
    · rw [if_neg hu, h1, h2, h3]
      rfl
  refine ⟨rfl, hid, fun hlink hne => ?_⟩
  unfold candKey
  rw [hlink]
  simp [hne, hid]

/-- Witness for C10 (amended) on a non-YouTube URL. -/
theorem extract_id_fallback_witness :
    strContains "https://vimeo.com/12345" "v=" = false
    ∧ strContains "https://vimeo.com/12345" "/shorts/" = false
    ∧ strContains "https://vimeo.com/12345" "youtu.be/" = false
    ∧ extract_youtube_id "https://vimeo.com/12345" = "https://vimeo.com/12345"
    ∧ candKey { link := some "https://vimeo.com/12345" } =
        some "https://vimeo.com/12345" :=
  ⟨by decide, by decide, by decide,
   (extract_id_fallback "https://vimeo.com/12345" {} (by decide) (by decide)
      (by decide)).2.1,
   (extract_id_fallback "https://vimeo.com/12345"
      { link := some "https://vimeo.com/12345" } (by decide) (by decide)
      (by decide)).2.2 rfl (by decide)⟩

/-- A selector step touching a different identifier leaves a key's entry
alone. -/
theorem selectorStep_aget_ne (st : AList VideoResource) (iv : Nat × TargetVideo)
    (k : String) (hne : selectorVideoId iv.1 iv.2 ≠ k) :
    aget (selectorStep st iv) k = aget st k := by
  cases hst : aget st (selectorVideoId iv.1 iv.2) with
  | none =>
    simp only [selectorStep, hst]
    exact aget_aset_ne st k (selectorVideoId iv.1 iv.2) _ hne
  | some r =>
    by_cases hs : r.status ≠ "verified" ∧ r.status ≠ "watched"
    · simp only [selectorStep, hst, if_pos hs]
      exact aget_aset_ne st k (selectorVideoId iv.1 iv.2) _ hne
    · simp only [selectorStep, hst, if_neg hs]

/-- The selector loop preserves verified and watched entries untouched. -/
theorem selectorUpdateStore_keeps_vw (k : String) :
    ∀ (l : List (Nat × TargetVideo)) (st : AList VideoResource)
      (r : VideoResource), aget st k = some r →
      (r.status = "verified" ∨ r.status = "watched") →
      aget (selectorUpdateStore st l) k = some r := by
  intro l
  induction l with
  | nil =>
    intro st r h _
    exact h
  | cons iv rest ih =>
    intro st r h hvw
    by_cases hk : selectorVideoId iv.1 iv.2 = k
    · have hstep : selectorStep st iv = st := by
        have hns : ¬(r.status ≠ "verified" ∧ r.status ≠ "watched") := by
          rcases hvw with hv | hw
          · exact fun hc => hc.1 hv
          · exact fun hc => hc.2 hw
        simp only [selectorStep, hk, h, if_neg hns]
      rw [show selectorUpdateStore st (iv :: rest) =
          selectorUpdateStore (selectorStep st iv) rest from rfl, hstep]
      exact ih st r h hvw
    · rw [show selectorUpdateStore st (iv :: rest) =
          selectorUpdateStore (selectorStep st iv) rest from rfl]
      exact ih _ r (by rw [selectorStep_aget_ne st iv k hk]; exact h) hvw

/-- The selector loop keeps a candidate entry exactly as it is: re-marking a
candidate as candidate is the identity. -/
theorem selectorUpdateStore_keeps_candidate (k : String) :
    ∀ (l : List (Nat × TargetVideo)) (st : AList VideoResource)
      (r : VideoResource), aget st k = some r → r.status = "candidate" →
      aget (selectorUpdateStore st l) k = some r := by
  intro l
  induction l with
  | nil =>
    intro st r h _
    exact h
  | cons iv rest ih =>
    intro st r h hc
    rw [show selectorUpdateStore st (iv :: rest) =
        selectorUpdateStore (selectorStep st iv) rest from rfl]
    by_cases hk : selectorVideoId iv.1 iv.2 = k
    · have hmk : ({ r with status := "candidate" } : VideoResource) = r := by
        cases r
        simp_all
      have hstep : aget (selectorStep st iv) k = some r := by
        have hcond : r.status ≠ "verified" ∧ r.status ≠ "watched" := by
          rw [hc]
          exact ⟨by decide, by decide⟩
        simp only [selectorStep, hk, h, if_pos hcond]
        rw [hmk]
        exact aget_aset_self st k r
      exact ih _ r hstep hc
    · exact ih _ r (by rw [selectorStep_aget_ne st iv k hk]; exact h) hc

/-- An existing entry that is neither verified nor watched is re-marked
`"candidate"` once its identifier is rediscovered by the loop. -/
theorem selector_remark_candidate (k : String) :
    ∀ (l : List (Nat × TargetVideo)) (st : AList VideoResource)
      (r : VideoResource), aget st k = some r →
      r.status ≠ "verified" → r.status ≠ "watched" →
      (∃ iv ∈ l, selectorVideoId iv.1 iv.2 = k) →
      aget (selectorUpdateStore st l) k =
        some { r with status := "candidate" } := by
  intro l
  induction l with
  | nil =>
    intro st r _ _ _ hex
    rcases hex with ⟨iv, hiv, _⟩
    exact absurd hiv (List.not_mem_nil iv)
  | cons iv rest ih =>
    intro st r h hv hw hex
    rw [show selectorUpdateStore st (iv :: rest) =
        selectorUpdateStore (selectorStep st iv) rest from rfl]
    by_cases hk : selectorVideoId iv.1 iv.2 = k
    · have hstep : aget (selectorStep st iv) k =
          some { r with status := "candidate" } := by
        simp only [selectorStep, hk, h, if_pos (And.intro hv hw)]
        exact aget_aset_self st k _
      exact selectorUpdateStore_keeps_candidate k rest _ _ hstep rfl
    · have hrest : ∃ iv2 ∈ rest, selectorVideoId iv2.1 iv2.2 = k := by
        rcases hex with ⟨iv2, hiv2, hid⟩
        rcases List.mem_cons.mp hiv2 with rfl | hmem
        · exact absurd hid hk
        · exact ⟨iv2, hmem, hid⟩
      exact ih _ r (by rw [selectorStep_aget_ne st iv k hk]; exact h) hv hw hrest

/-- An unseen identifier among the selected candidates ends up in the store
with status `"candidate"`. -/
theorem selector_insert_candidate (k : String) :
    ∀ (l : List (Nat × TargetVideo)) (st : AList VideoResource),
      aget st k = none →
      (∃ iv ∈ l, selectorVideoId iv.1 iv.2 = k) →
      ∃ r', aget (selectorUpdateStore st l) k = some r'
        ∧ r'.status = "candidate" := by
  intro l
  induction l with
  | nil =>
    intro st _ hex
    rcases hex with ⟨iv, hiv, _⟩
    exact absurd hiv (List.not_mem_nil iv)
  | cons iv rest ih =>
    intro st h hex
    rw [show selectorUpdateStore st (iv :: rest) =
        selectorUpdateStore (selectorStep st iv) rest from rfl]
    by_cases hk : selectorVideoId iv.1 iv.2 = k
    · have hstep : aget (selectorStep st iv) k =
          some (newCandidateResource k iv.2) := by
        simp only [selectorStep, hk, h]
        exact aget_aset_self st k _
      refine ⟨newCandidateResource k iv.2, ?_, rfl⟩
      exact selectorUpdateStore_keeps_candidate k rest _ _ hstep rfl
    · have hrest : ∃ iv2 ∈ rest, selectorVideoId iv2.1 iv2.2 = k := by
        rcases hex with ⟨iv0, hiv0, hid⟩
        rcases List.mem_cons.mp hiv0 with rfl | hmem
        · exact absurd hid hk
        · exact ⟨iv0, hmem, hid⟩
      exact ih _ (by rw [selectorStep_aget_ne st iv k hk]; exact h) hrest

/-- C4: for every identifier, a Selector pass leaves a verified or watched
resource's entry unchanged even when it re-discovers the identifier; an
existing entry with any other status is re-marked `"candidate"` when the
identifier is among the selected candidates; and an unseen identifier among
the selected candidates is inserted with status `"candidate"`. -/
theorem selector_status_monotonic (st : AList VideoResource)
    (targets : List TargetVideo) (k : String) :
    (∀ r, aget st k = some r →
      (r.status = "verified" ∨ r.status = "watched") →
      aget (selector_node_store st targets) k = some r)
    ∧ (∀ r, aget st k = some r → r.status ≠ "verified" →
      r.status ≠ "watched" →
      (∃ iv ∈ targets.enum, selectorVideoId iv.1 iv.2 = k) →
      aget (selector_node_store st targets) k =
        some { r with status := "candidate" })
    ∧ (aget st k = none →
      (∃ iv ∈ targets.enum, selectorVideoId iv.1 iv.2 = k) →
      ∃ r', aget (selector_node_store st targets) k = some r'
        ∧ r'.status = "candidate") := by
  refine ⟨fun r h hvw => selectorUpdateStore_keeps_vw k targets.enum st r h hvw,
    fun r h hv hw hex => ?_, fun h hex => ?_⟩
  · exact selector_remark_candidate k targets.enum st r h hv hw hex
  · exact selector_insert_candidate k targets.enum st h hex

/-- Witness for C4: re-discovering a verified resource leaves it unchanged. -/
theorem selector_status_monotonic_witness :
    aget [("K", sampleVerified)] "K" = some sampleVerified
    ∧ (sampleVerified.status = "verified" ∨ sampleVerified.status = "watched")
    ∧ aget (selector_node_store [("K", sampleVerified)]
        [{ url := "https://youtu.be/K" }]) "K" = some sampleVerified :=
  ⟨rfl, Or.inl rfl,
   (selector_status_monotonic [("K", sampleVerified)]
      [{ url := "https://youtu.be/K" }] "K").1 sampleVerified rfl (Or.inl rfl)⟩

/-- C6: whenever structured-output parsing of the Planner's model response
fails, the returned partial update's `current_search_queries` is exactly the
single-element list holding the user query and its `plan_trace` contribution
is exactly the one entry noting the fallback; the node is total on malformed
output. -/
theorem planner_fallback (user_query : String) (max_queries : Nat) :
    (planner_node user_query max_queries none).current_search_queries
        = [user_query]
    ∧ (planner_node user_query max_queries none).plan_trace
        = ["Thought: Parsing error, fallback to original query."] :=
  ⟨rfl, rfl⟩

/-- C7 (code bug): the empty-store half of the claim holds — the Analyst
returns the fixed degraded answer without invoking the synthesis
collaborator — but a non-empty store whose single verified resource carries
a summary that `json.loads` accepts as a non-object (for example the array
the Watcher can store via `json.dumps(extract_json_from_text(...))`) and no
transcript makes the node raise an uncaught `AttributeError` at
`analysis.get("relevant", False)` instead of returning the second fixed
degraded answer the claim and the spec's error-handling contract
prescribe. -/
theorem analyst_attribute_error_bug :
    analyst_node (fun _ => true) [] =
      AnalystResult.fixedAnswer "No videos were successfully processed."
    ∧ analyst_node (fun _ => true)
        [("v1", { status := "verified",
                  summaryState := SummaryField.parsedNonDict "[1]" })]
      = AnalystResult.attributeError
    ∧ analyst_node (fun _ => true)
        [("v1", { status := "verified",
                  summaryState := SummaryField.parsedNonDict "[1]" })]
      ≠ AnalystResult.fixedAnswer
          "No relevant video content or transcripts found to answer the query." :=
  ⟨by decide, by decide, by decide⟩

theorem foldl_appendReducer (parts : List (List String)) :
    ∀ init, List.foldl appendReducer init parts = init ++ parts.flatten := by
  induction parts with
  | nil =>
    intro init
    simp
  | cons p ps ih =>
    intro init
    rw [List.foldl_cons, ih]
    simp [appendReducer]

/-- C9: across any number of merges an append-policy field equals the
ordered concatenation of the initial value with every partial update's
contribution in merge order, duplicates retained; in particular three
Searcher updates each contributing one query yield the three-element list in
call order. -/
theorem append_policy_concat (init : List String)
    (parts : List (List String)) :
    List.foldl appendReducer init parts = init ++ parts.flatten
    ∧ ∀ q1 q2 q3 : String,
        List.foldl appendReducer init [[q1], [q2], [q3]] =
          init ++ [q1, q2, q3] := by
  refine ⟨foldl_appendReducer parts init, fun q1 q2 q3 => ?_⟩
  rw [foldl_appendReducer]
  rfl

/-- C2 (counterexample): merging a partial metrics record whose category
sub-map lacks a counter present in the current record loses that counter —
the `operator.ior` reducer replaces nested sub-maps wholesale instead of
merging them key by key as the claim states. -/
theorem metrics_merge_counterexample :
    iorMerge
        [("jit_selector", MVal.sub [("input_tokens", 5), ("output_tokens", 2)])]
        [("jit_selector", MVal.sub [("input_tokens", 7)])]
      = [("jit_selector", MVal.sub [("input_tokens", 7)])]
    ∧ twoLevelMerge
        [("jit_selector", MVal.sub [("input_tokens", 5), ("output_tokens", 2)])]
        [("jit_selector", MVal.sub [("input_tokens", 7)])]
      = [("jit_selector", MVal.sub [("input_tokens", 7), ("output_tokens", 2)])]
    ∧ iorMerge
        [("jit_selector", MVal.sub [("input_tokens", 5), ("output_tokens", 2)])]
        [("jit_selector", MVal.sub [("input_tokens", 7)])]
      ≠ twoLevelMerge
        [("jit_selector", MVal.sub [("input_tokens", 5), ("output_tokens", 2)])]
        [("jit_selector", MVal.sub [("input_tokens", 7)])] := by
  refine ⟨by decide, by decide, by decide⟩

theorem aget_append {α : Type} (l1 l2 : AList α) (k : String) :
    aget (l1 ++ l2) k =
      match aget l1 k with
      | some v => some v
      | none => aget l2 k := by
  induction l1 with
  | nil => rfl
  | cons p rest ih =>
    by_cases h : p.1 = k <;> simp [aget, h, ih]

theorem aget_ior_map (part : MDict) (k : String) :
    ∀ current : MDict,
      aget (current.map (fun p =>
        match aget part p.1 with
        | some v => (p.1, v)
        | none => p)) k =
      match aget current k with
      | some v => some (match aget part k with
                        | some w => w
                        | none => v)
      | none => none := by
  intro current
  induction current with
  | nil => rfl
  | cons p rest ih =>
    by_cases h : p.1 = k
    · subst h
      cases hp : aget part p.1 <;> simp [aget, hp]
    · cases hp : aget part p.1 <;> simp [aget, h, hp, ih]

theorem aget_ior_filter (current : MDict) (k : String) :
    ∀ part : MDict,
      aget (part.filter (fun p => (aget current p.1).isNone)) k =
        if (aget current k).isNone then aget part k else none := by
  intro part
  induction part with
  | nil =>
    cases h : (aget current k).isNone <;> simp [aget, h]
  | cons q qs ih =>
    by_cases hq : q.1 = k
    · subst hq
      cases hcur : (aget current q.1).isNone <;>
        simp [List.filter_cons, aget, hcur, ih]
    · cases hkeep : (aget current q.1).isNone <;>
        simp [List.filter_cons, aget, hq, hkeep, ih]

/-- C2 (amended): the metrics reducer is a one-level shallow merge — for
every top-level key the partial update's value wins wholesale (nested
sub-maps are replaced, not merged) and keys only in the current record are
retained; the per-category accumulation happens instead inside the stage,
whose `update_token_metrics` copies the current record, pre-adds the
counters, and leaves every key other than the three global counters and the
updated category untouched. -/
theorem metrics_merge_shallow (usage : TokenUsage) (cat : String) :
    (∀ (current part : MDict) (k : String),
      aget (iorMerge current part) k =
        if (aget part k).isSome then aget part k else aget current k)
    ∧ (∀ (current : MDict) (k : String),
      k ≠ "input_tokens" → k ≠ "output_tokens" → k ≠ "total_tokens" →
      k ≠ cat →
      aget (update_token_metrics current usage (some cat)) k =
        aget current k) := by
  constructor
  · intro current part k
    unfold iorMerge
    rw [aget_append, aget_ior_map part k current, aget_ior_filter current k part]
    cases hc : aget current k <;> cases hp : aget part k <;> simp [hc, hp]
  · intro current k hk1 hk2 hk3 hk4
    simp only [update_token_metrics]
    rw [aget_aset_ne _ _ _ _ (Ne.symm hk4), aget_aset_ne _ _ _ _ (Ne.symm hk3),
      aget_aset_ne _ _ _ _ (Ne.symm hk2), aget_aset_ne _ _ _ _ (Ne.symm hk1)]

/-- Witness for C2 (amended) at a concrete record, usage and category. -/
theorem metrics_merge_shallow_witness :
    ("selector" ≠ "input_tokens" ∧ "selector" ≠ "output_tokens"
      ∧ "selector" ≠ "total_tokens" ∧ "selector" ≠ "watcher")
    ∧ aget (update_token_metrics
        [("selector", MVal.sub [("input_tokens", 1)])]
        { prompt_tokens := 5, completion_tokens := 7, total_tokens := 12 }
        (some "watcher")) "selector"
      = aget [("selector", MVal.sub [("input_tokens", 1)])] "selector" :=
  ⟨⟨by decide, by decide, by decide, by decide⟩,
   (metrics_merge_shallow
      { prompt_tokens := 5, completion_tokens := 7, total_tokens := 12 }
      "watcher").2
     [("selector", MVal.sub [("input_tokens", 1)])] "selector"
     (by decide) (by decide) (by decide) (by decide)⟩

end VideoBrowser
